import Mathlib

/-
Shallow embedding of the FastWebP compression core (src/app.py).

The embedded functions mirror `prepare_image_for_webp` (app.py lines 85-135),
`compress_image` (lines 137-231) and their helpers.  External collaborators
(PIL decode/encode, resampling) are parameters or abstractions:

  * the WebP encoder is a parameter `E : PImage → EncodeMode → List Nat`
    returning the encoded byte buffer (claims quantify over encoders, with
    explicit hypotheses such as monotonicity where a claim assumes them);
  * PIL `Image.resize` changes the stored dimensions; resampled pixel content
    is not inspected by any claim and is kept as the source accessor;
  * PIL compositing (`Image.new` + `paste` with an alpha mask, lines 104-106)
    is modelled per the alpha-blend description of the spec (section 4.1):
    weight 0 = fully background, 255 = fully source;
  * Python float arithmetic (sizes in KB, the reduction factor) is modelled
    by exact rationals; all concrete counterexamples below were chosen so
    that the verdict is unchanged by IEEE rounding of the Python originals;
  * rational arithmetic is written through small `mkRat`-based helpers
    (`ratDivNat`, `natMulRat`, `ratSub`, `pymin`) because the `Rat`
    operations of the ambient library are irreducible for kernel reduction;
    each helper is proved equal to the standard field operation right below
    its definition, so the embedding is exact rational arithmetic;
  * the two while loops are embedded with an explicit fuel argument; the
    fuel passed by `compress_image` provably dominates the iteration count
    (the loop lemmas carry the corresponding bounds, discharged at the call
    sites), and exhausted fuel returns exactly the loop-exit state.
-/

namespace FastWebP

/-- Exact rational division of two naturals (Python `a / b` on numbers). -/
def ratDivNat (a b : Nat) : Rat := mkRat a b

/-- Exact product of a natural with a rational (Python `width * scale`). -/
def natMulRat (n : Nat) (x : Rat) : Rat := mkRat (n * x.num) x.den

/-- Exact rational subtraction (Python `f - 0.1`). -/
def ratSub (a b : Rat) : Rat := mkRat (a.num * b.den - b.num * a.den) (a.den * b.den)

/-- Python's two-argument `min` on numbers. -/
def pymin (a b : Rat) : Rat := if a ≤ b then a else b

/-- Python `int(x)` for the nonnegative values arising here (floor). -/
def ratFloorNat (x : Rat) : Nat := x.floor.toNat

theorem ratDivNat_eq (a b : Nat) : ratDivNat a b = (a : Rat) / (b : Rat) := by
  simp [ratDivNat, Rat.mkRat_eq_div]

theorem natMulRat_eq (n : Nat) (x : Rat) : natMulRat n x = (n : Rat) * x := by
  rw [natMulRat, Rat.mkRat_eq_div]
  push_cast
  rw [mul_div_assoc, Rat.num_div_den]

theorem ratSub_eq (a b : Rat) : ratSub a b = a - b := by
  rw [ratSub, Rat.mkRat_eq_div]
  have ha : ((a.den : Rat)) ≠ 0 := by exact_mod_cast a.den_nz
  have hb : ((b.den : Rat)) ≠ 0 := by exact_mod_cast b.den_nz
  conv_rhs => rw [← Rat.num_div_den a, ← Rat.num_div_den b]
  push_cast
  field_simp
  ring

theorem pymin_eq (a b : Rat) : pymin a b = min a b := (min_def a b).symm

theorem ratFloorNat_eq (x : Rat) : ratFloorNat x = (⌊x⌋).toNat := by
  have h : x.floor = ⌊x⌋ := by rw [Rat.floor_def', Rat.floor_def]
  rw [ratFloorNat, h]

/-- Color mode tag of a decoded image (the PIL mode strings that
`prepare_image_for_webp` distinguishes; `other` stands for any further
truecolor-like mode such as CMYK). -/
inductive Mode
  | RGBA
  | P
  | L
  | LA
  | RGB
  | other
  deriving DecidableEq

/-- One pixel, RGBA components (alpha is 255 for modes without alpha). -/
structure Pixel where
  r : Nat
  g : Nat
  b : Nat
  a : Nat
  deriving DecidableEq

/-- A decoded raster image: mode tag, the `'transparency' in image.info`
flag of palette images, pixel dimensions, and a pixel accessor. -/
structure PImage where
  mode : Mode
  infoTransparency : Bool
  width : Nat
  height : Nat
  px : Nat → Nat → Pixel

/-- The save options of one encode attempt as a tagged choice:
`{'quality': q}` or `{'lossless': True}` (quality key removed). -/
inductive EncodeMode
  | lossy (quality : Nat)
  | lossless
  deriving DecidableEq

/-- PIL `Image.resize`: the dimensions change; the resampled pixel content is
abstracted (no claim inspects pixels after a resize). -/
def PImage.resize (img : PImage) (w h : Nat) : PImage :=
  { img with width := w, height := h }

/-- Whether a mode carries an alpha channel. -/
def modeHasAlpha : Mode → Bool
  | .RGBA => true
  | .LA => true
  | _ => false

/-- app.py line 153: `image.mode in ("RGBA", "LA") or
(image.mode == "P" and 'transparency' in image.info)`. -/
def hasTransparencyOf (img : PImage) : Bool :=
  match img.mode with
  | .RGBA => true
  | .LA => true
  | .P => img.infoTransparency
  | _ => false

/-- Per-channel alpha blend of source over background,
weight 0 = fully background, 255 = fully source (spec section 4.1). -/
def blend (bg src alpha : Nat) : Nat :=
  (src * alpha + bg * (255 - alpha)) / 255

/-- app.py lines 104-106 (and 116-118): `Image.new('RGB', image.size,
(255, 255, 255))` then `background.paste(image, mask=image.split()[-1])`.
The background color is hardcoded white in the source. -/
def flattenOntoWhite (img : PImage) : PImage :=
  { mode := .RGB
    infoTransparency := false
    width := img.width
    height := img.height
    px := fun x y =>
      let s := img.px x y
      ⟨blend 255 s.r s.a, blend 255 s.g s.a, blend 255 s.b s.a, 255⟩ }

/-- PIL `convert`: pixels keep their color components; targets without an
alpha channel drop alpha (set to opaque). Palette expansion is folded into
the RGBA pixel representation. -/
def convertPx (target : Mode) (p : Pixel) : Pixel :=
  if target = Mode.RGBA ∨ target = Mode.LA then p else { p with a := 255 }

/-- PIL `image.convert(target)`. -/
def PImage.convert (img : PImage) (target : Mode) : PImage :=
  { img with
    mode := target
    infoTransparency := false
    px := fun x y => convertPx target (img.px x y) }

/-- app.py lines 85-135: `prepare_image_for_webp(image, preserve_transparency)`. -/
def prepare_image_for_webp (image : PImage) (preserve_transparency : Bool) : PImage :=
  if image.mode = Mode.RGBA then
    if preserve_transparency then image
    else flattenOntoWhite image
  else if image.mode = Mode.P then
    if image.infoTransparency then
      if preserve_transparency then image.convert Mode.RGBA
      else flattenOntoWhite (image.convert Mode.RGBA)
    else image.convert Mode.RGB
  else if image.mode = Mode.L ∨ image.mode = Mode.LA then
    if image.mode = Mode.LA ∧ preserve_transparency = true then image.convert Mode.RGBA
    else image.convert Mode.RGB
  else
    if image.mode ≠ Mode.RGB then image.convert Mode.RGB
    else image

/-- app.py lines 81-83: size of a byte buffer in KB (`len(image_bytes) / 1024`). -/
def get_image_size (image_bytes : List Nat) : Rat :=
  ratDivNat image_bytes.length 1024

theorem get_image_size_eq (b : List Nat) :
    get_image_size b = (b.length : Rat) / 1024 := by
  rw [get_image_size, ratDivNat_eq]
  norm_num

/-- app.py line 160: `min(max_width / width, max_height / height, 1.0)`. -/
def resizeScale (img : PImage) (max_width max_height : Nat) : Rat :=
  pymin (pymin (ratDivNat max_width img.width) (ratDivNat max_height img.height)) 1

/-- app.py lines 158-166: fit within the maximum dimensions (downscale only;
note the source has no 1-pixel minimum clamp). -/
def fitImage (img : PImage) (max_width max_height : Nat) : PImage :=
  let s := resizeScale img max_width max_height
  if s < 1 then
    img.resize (ratFloorNat (natMulRat img.width s)) (ratFloorNat (natMulRat img.height s))
  else img

/-- app.py lines 180-189: the save options of a search probe; lossless is
taken when the image has transparency, preservation is requested, and the
probed quality exceeds 90. -/
def searchSaveMode (has_transparency preserve_transparency : Bool) (current_quality : Nat) :
    EncodeMode :=
  if has_transparency && preserve_transparency && decide (90 < current_quality) then
    EncodeMode.lossless
  else
    EncodeMode.lossy current_quality

/-- app.py lines 174-200: the binary-search loop over quality.
State: `low`, `high`, `best_quality`, `best_image_bytes`, and the last
`img_bytes` written by a probe.  `probe q` is the encoded buffer of the
prepared, fitted image at save options for quality `q`.  The fuel argument
bounds the iteration count; when it reaches zero the loop-exit state is
returned (the call site passes fuel exceeding `high + 1 - low`, which the
loop lemmas show is enough for the loop condition to decide every exit). -/
def quality_search (probe : Nat → List Nat) (target_size_kb : Rat) :
    Nat → Nat → Nat → Nat → Option (List Nat) → List Nat →
    Nat × Option (List Nat) × List Nat
  | 0, _, _, best_quality, best_image_bytes, img_bytes =>
    (best_quality, best_image_bytes, img_bytes)
  | fuel + 1, low_quality, high_quality, best_quality, best_image_bytes, img_bytes =>
    if low_quality ≤ high_quality then
      let current_quality := (low_quality + high_quality) / 2
      let bytes := probe current_quality
      if get_image_size bytes ≤ target_size_kb then
        quality_search probe target_size_kb fuel
          (current_quality + 1) high_quality current_quality (some bytes) bytes
      else
        quality_search probe target_size_kb fuel
          low_quality (current_quality - 1) best_quality best_image_bytes bytes
    else (best_quality, best_image_bytes, img_bytes)

/-- Python `best_image_bytes or img_bytes` (lines 208 and 231): `None` and
the empty buffer are falsy. -/
def pyOrBytes (best_image_bytes : Option (List Nat)) (img_bytes : List Nat) : List Nat :=
  match best_image_bytes with
  | none => img_bytes
  | some b => if b = [] then img_bytes else b

/-- app.py line 203: `best_image_bytes is None or
get_image_size(best_image_bytes) > target_size_kb`. -/
def needsFallback (best_image_bytes : Option (List Nat)) (target_size_kb : Rat) : Bool :=
  match best_image_bytes with
  | none => true
  | some b => decide (target_size_kb < get_image_size b)

/-- app.py lines 204-228: the dimension fallback loop.  `cw`, `ch` are the
`current_width`, `current_height` read once before the loop (line 205) and
`image` is the fitted image, never reassigned inside the loop (the source
only reassigns it on the `break` at line 226, which here becomes the third
component of the successful return).  Every encode inside uses the lossy
options of lines 215-219 at the fixed `best_quality`.  Fuel as in
`quality_search`; exhausted fuel returns the loop-exit state. -/
def dimension_fallback (E : PImage → EncodeMode → List Nat) (target_size_kb : Rat)
    (best_quality cw ch : Nat) (image : PImage) :
    Nat → Option (List Nat) → List Nat → Rat →
    Option (List Nat) × List Nat × PImage
  | 0, best_image_bytes, img_bytes, _ => (best_image_bytes, img_bytes, image)
  | fuel + 1, best_image_bytes, img_bytes, reduction_factor =>
    if target_size_kb < get_image_size (pyOrBytes best_image_bytes img_bytes) ∧
        ratDivNat 3 10 < reduction_factor then
      let new_width := ratFloorNat (natMulRat cw reduction_factor)
      let new_height := ratFloorNat (natMulRat ch reduction_factor)
      let resized_image := image.resize new_width new_height
      let bytes := E resized_image (EncodeMode.lossy best_quality)
      if get_image_size bytes ≤ target_size_kb then
        (some bytes, bytes, resized_image)
      else
        dimension_fallback E target_size_kb best_quality cw ch image fuel
          best_image_bytes bytes (ratSub reduction_factor (ratDivNat 1 10))
    else (best_image_bytes, img_bytes, image)

/-- The image actually handed to the encoder by `compress_image` before any
fallback reduction: prepared (line 156) then fitted (lines 158-166). -/
def fittedImage (image : PImage) (max_width max_height : Nat)
    (preserve_transparency : Bool) : PImage :=
  fitImage
    (prepare_image_for_webp image (preserve_transparency && hasTransparencyOf image))
    max_width max_height

/-- The probe of the quality search: encode the prepared, fitted image at the
save options for quality `q` (lines 177-192). -/
def searchProbe (E : PImage → EncodeMode → List Nat) (image : PImage)
    (max_width max_height : Nat) (preserve_transparency : Bool) :
    Nat → List Nat :=
  fun q =>
    E (fittedImage image max_width max_height preserve_transparency)
      (searchSaveMode (hasTransparencyOf image) preserve_transparency q)

/-- The tuple returned by `compress_image` (line 231). -/
structure CompressResult where
  bytes : List Nat
  quality : Nat
  finalW : Nat
  finalH : Nat
  has_transparency : Bool
  deriving DecidableEq

/-- app.py lines 137-231: `compress_image`. -/
def compress_image (E : PImage → EncodeMode → List Nat) (image : PImage)
    (target_size_kb : Rat) (quality : Nat) (max_width max_height : Nat)
    (preserve_transparency : Bool) : CompressResult :=
  -- line 153
  let has_transparency := hasTransparencyOf image
  -- lines 156-166
  let fitted := fittedImage image max_width max_height preserve_transparency
  -- lines 168-200: low=1, high=quality, best_quality=quality, best=None.
  -- The initial [] stands for Python's still-unbound img_bytes: for
  -- quality >= 1 the loop body runs at least once and overwrites it
  -- (Python would raise NameError at line 208 when quality < 1).
  let s := quality_search (searchProbe E image max_width max_height preserve_transparency)
    target_size_kb (quality + 1) 1 quality quality none []
  let best_quality := s.1
  let best_image_bytes := s.2.1
  let img_bytes := s.2.2
  -- lines 202-228
  let f :=
    if needsFallback best_image_bytes target_size_kb then
      dimension_fallback E target_size_kb best_quality fitted.width fitted.height fitted
        10 best_image_bytes img_bytes (ratDivNat 8 10)
    else (best_image_bytes, img_bytes, fitted)
  -- lines 230-231
  { bytes := pyOrBytes f.1 f.2.1
    quality := best_quality
    finalW := f.2.2.width
    finalH := f.2.2.height
    has_transparency := has_transparency }

/-- A plain opaque truecolor image, for concrete instances. -/
def mkRGB (w h : Nat) : PImage :=
  { mode := Mode.RGB, infoTransparency := false, width := w, height := h,
    px := fun _ _ => ⟨0, 0, 0, 255⟩ }

/-- A truecolor + alpha image with a constant pixel, for concrete instances. -/
def mkRGBA (w h : Nat) (p : Pixel) : PImage :=
  { mode := Mode.RGBA, infoTransparency := false, width := w, height := h,
    px := fun _ _ => p }

/-! ### Concrete encoders and images used as witnesses and counterexamples -/

/-- Encoder whose lossy output length grows with quality (`q + 1` bytes). -/
def lenE : PImage → EncodeMode → List Nat
  | _, .lossy q => List.replicate (q + 1) 1
  | _, .lossless => List.replicate 200 1

/-- Encoder with a constant one-byte output. -/
def constE : PImage → EncodeMode → List Nat :=
  fun _ _ => [1]

/-- Encoder whose output length equals the width of the encoded image. -/
def widthE : PImage → EncodeMode → List Nat :=
  fun im _ => List.replicate im.width 0

/-- Encoder whose lossy output length is `quality * width` of the encoded
image. -/
def qwE : PImage → EncodeMode → List Nat
  | im, .lossy q => List.replicate (q * im.width) 0
  | _, .lossless => [0]

/-- Encoder with a recognizable lossless output `[7]`, distinct from every
lossy output `[0]`. -/
def markE : PImage → EncodeMode → List Nat
  | _, .lossy _ => [0]
  | _, .lossless => [7]

/-- Encoder pair differing only in their lossless output, to exhibit that
the fallback loop never consults the lossless path. -/
def markE2 : PImage → EncodeMode → List Nat
  | _, .lossy q => [q]
  | _, .lossless => [9, 9]

def markE3 : PImage → EncodeMode → List Nat
  | _, .lossy q => [q]
  | _, .lossless => []

/-- A 1-by-1 truecolor image with one fully transparent pixel. -/
def imgTransparent : PImage := mkRGBA 1 1 ⟨10, 20, 30, 0⟩

/-! ### Lemmas about the quality-search loop -/

/-- Byte-length monotone buffers have monotone KB sizes. -/
theorem size_le_of_len_le {b c : List Nat} (h : b.length ≤ c.length) :
    get_image_size b ≤ get_image_size c := by
  rw [get_image_size_eq, get_image_size_eq]
  exact (div_le_div_iff_of_pos_right (by norm_num)).mpr (by exact_mod_cast h)

/-- Python `b or x` returns `b` for a nonempty buffer `b`. -/
theorem pyOr_some {b : List Nat} (x : List Nat) (h : b ≠ []) :
    pyOrBytes (some b) x = b := by
  simp [pyOrBytes, h]

/-- When the loop condition is false, the search returns its state unchanged. -/
theorem qs_exit (probe : Nat → List Nat) (t : Rat) (fuel low high best : Nat)
    (bb : Option (List Nat)) (last : List Nat) (h : ¬ low ≤ high) :
    quality_search probe t fuel low high best bb last = (best, bb, last) := by
  cases fuel with
  | zero => rfl
  | succ n => rw [quality_search, if_neg h]

/-- The `best_image_bytes` state can only go from `None` to `Some`,
never back. -/
theorem qs_none_mono (probe : Nat → List Nat) (t : Rat) :
    ∀ fuel low high best bb last,
      (quality_search probe t fuel low high best bb last).2.1 = none → bb = none := by
  intro fuel
  induction fuel with
  | zero => intro low high best bb last h; simpa [quality_search] using h
  | succ n ih =>
    intro low high best bb last h
    rw [quality_search] at h
    by_cases h1 : low ≤ high
    · rw [if_pos h1] at h
      by_cases h2 : get_image_size (probe ((low + high) / 2)) ≤ t
      · rw [if_pos h2] at h
        exact absurd (ih _ _ _ _ _ h) (by simp)
      · rw [if_neg h2] at h
        exact ih _ _ _ _ _ h
    · rw [if_neg h1] at h
      simpa using h

/-- Lines 195-197: whatever ends up in `best_image_bytes` is the probe of the
final `best_quality` and it met the budget. -/
theorem qs_some_spec (probe : Nat → List Nat) (t : Rat) :
    ∀ fuel low high best bb last,
      (∀ b, bb = some b → b = probe best ∧ get_image_size b ≤ t) →
      ∀ b', (quality_search probe t fuel low high best bb last).2.1 = some b' →
        b' = probe ((quality_search probe t fuel low high best bb last).1) ∧
        get_image_size b' ≤ t := by
  intro fuel
  induction fuel with
  | zero =>
    intro low high best bb last hinv b' h
    exact hinv b' (by simpa [quality_search] using h)
  | succ n ih =>
    intro low high best bb last hinv b' h
    rw [quality_search] at h ⊢
    by_cases h1 : low ≤ high
    · rw [if_pos h1] at h ⊢
      by_cases h2 : get_image_size (probe ((low + high) / 2)) ≤ t
      · rw [if_pos h2] at h ⊢
        exact ih _ _ _ _ _ (by intro b hb; cases hb; exact ⟨rfl, h2⟩) b' h
      · rw [if_neg h2] at h ⊢
        exact ih _ _ _ _ _ hinv b' h
    · rw [if_neg h1] at h ⊢
      exact hinv b' (by simpa using h)

/-- If the probe at quality 1 meets the budget and the loop starts at
`low = 1` with enough fuel, some probe is recorded. -/
theorem qs_hits_one (probe : Nat → List Nat) (t : Rat)
    (h1P : get_image_size (probe 1) ≤ t) :
    ∀ fuel low high best bb last, low = 1 → 1 ≤ high → high + 1 - low ≤ fuel →
      (quality_search probe t fuel low high best bb last).2.1 ≠ none := by
  intro fuel
  induction fuel with
  | zero => intro low high best bb last hlow hhigh hfuel; omega
  | succ n ih =>
    intro low high best bb last hlow hhigh hfuel
    subst hlow
    rw [quality_search, if_pos (by omega)]
    by_cases h2 : get_image_size (probe ((1 + high) / 2)) ≤ t
    · rw [if_pos h2]
      intro hc
      exact absurd (qs_none_mono probe t _ _ _ _ _ _ hc) (by simp)
    · rw [if_neg h2]
      by_cases hh : high ≤ 2
      · exfalso
        have hm : (1 + high) / 2 = 1 := by omega
        rw [hm] at h2
        exact h2 h1P
      · exact ih 1 ((1 + high) / 2 - 1) _ _ _ rfl (by omega) (by omega)

/-- If no probe was ever recorded, the last probe (quality 1) failed the
budget: the `img_bytes` leaving the loop exceed the target. -/
theorem qs_none_last (probe : Nat → List Nat) (t : Rat) :
    ∀ fuel low high best bb last, high + 1 - low ≤ fuel → 1 ≤ low → low ≤ high →
      (quality_search probe t fuel low high best bb last).2.1 = none →
      t < get_image_size ((quality_search probe t fuel low high best bb last).2.2) := by
  intro fuel
  induction fuel with
  | zero => intro low high best bb last hfuel hlow hles _; omega
  | succ n ih =>
    intro low high best bb last hfuel hlow hles h
    rw [quality_search, if_pos hles] at h ⊢
    by_cases h2 : get_image_size (probe ((low + high) / 2)) ≤ t
    · rw [if_pos h2] at h
      exact absurd (qs_none_mono probe t _ _ _ _ _ _ h) (by simp)
    · rw [if_neg h2] at h ⊢
      by_cases h3 : low ≤ (low + high) / 2 - 1
      · exact ih _ _ _ _ _ (by omega) hlow h3 h
      · rw [qs_exit probe t _ _ _ _ _ _ h3]
        exact lt_of_not_le h2

/-- The fuel argument is irrelevant once it dominates `high + 1 - low`: the
embedded loop equals the unbounded Python loop.  `compress_image` passes
`quality + 1 ≥ high + 1 - low`. -/
theorem qs_fuel_irrelevant (probe : Nat → List Nat) (t : Rat) :
    ∀ fuel fuel2 low high best bb last, 1 ≤ low →
      high + 1 - low ≤ fuel → high + 1 - low ≤ fuel2 →
      quality_search probe t fuel low high best bb last =
      quality_search probe t fuel2 low high best bb last := by
  intro fuel
  induction fuel with
  | zero =>
    intro fuel2 low high best bb last hl1 hf1 hf2
    have hlh : ¬ low ≤ high := by omega
    rw [qs_exit probe t _ _ _ _ _ _ hlh, qs_exit probe t _ _ _ _ _ _ hlh]
  | succ n ih =>
    intro fuel2 low high best bb last hl1 hf1 hf2
    by_cases hlh : low ≤ high
    · cases fuel2 with
      | zero => omega
      | succ m =>
        rw [quality_search, quality_search, if_pos hlh, if_pos hlh]
        by_cases h2 : get_image_size (probe ((low + high) / 2)) ≤ t
        · rw [if_pos h2, if_pos h2]
          refine ih m _ _ _ _ _ ?_ ?_ ?_ <;> omega
        · rw [if_neg h2, if_neg h2]
          refine ih m _ _ _ _ _ ?_ ?_ ?_ <;> omega
    · rw [qs_exit probe t _ _ _ _ _ _ hlh, qs_exit probe t _ _ _ _ _ _ hlh]

/-- With a probe whose encoded size is monotone in quality, the binary
search records the greatest quality in `[1, C]` meeting the budget
(`C` bounds the initial `high`). -/
theorem qs_max (probe : Nat → List Nat) (t : Rat) (C : Nat)
    (mono : ∀ q q', q ≤ q' → (probe q).length ≤ (probe q').length) :
    ∀ fuel low high best bb last,
      high + 1 - low ≤ fuel → 1 ≤ low → low ≤ high + 1 → high ≤ C →
      (bb = none → low = 1) →
      (∀ b, bb = some b → 2 ≤ low ∧ best = low - 1) →
      (∀ q, high < q → q ≤ C → ¬ get_image_size (probe q) ≤ t) →
      (∃ q0, 1 ≤ q0 ∧ q0 ≤ C ∧ get_image_size (probe q0) ≤ t) →
      (quality_search probe t fuel low high best bb last).2.1 ≠ none ∧
      (quality_search probe t fuel low high best bb last).1 ≤ C ∧
      ∀ q, 1 ≤ q → q ≤ C → get_image_size (probe q) ≤ t →
        q ≤ (quality_search probe t fuel low high best bb last).1 := by
  intro fuel
  induction fuel with
  | zero =>
    intro low high best bb last hfuel hlow hlh hhC hnone hsome hub hex
    obtain ⟨q0, hq01, hq0C, hq0P⟩ := hex
    have hqh : q0 ≤ high := by
      by_contra hq
      exact hub q0 (by omega) hq0C hq0P
    cases bb with
    | none => exfalso; have := hnone rfl; omega
    | some b =>
      obtain ⟨hl2, hbest⟩ := hsome b rfl
      rw [quality_search]
      refine ⟨by simp, by omega, ?_⟩
      intro q hq1 hqC hqP
      have hqhigh : q ≤ high := by
        by_contra hq
        exact hub q (by omega) hqC hqP
      omega
  | succ n ih =>
    intro low high best bb last hfuel hlow hlh hhC hnone hsome hub hex
    rw [quality_search]
    by_cases h1 : low ≤ high
    · rw [if_pos h1]
      by_cases h2 : get_image_size (probe ((low + high) / 2)) ≤ t
      · rw [if_pos h2]
        exact ih _ _ _ _ _ (by omega) (by omega) (by omega) hhC
          (by simp) (by intro b hb; cases hb; omega) hub hex
      · rw [if_neg h2]
        refine ih _ _ _ _ _ (by omega) hlow (by omega) (by omega) hnone hsome ?_ hex
        intro q hq hqC hqP
        have hmidq : (low + high) / 2 ≤ q := by omega
        exact h2 (le_trans (size_le_of_len_le (mono _ _ hmidq)) hqP)
    · rw [if_neg h1]
      obtain ⟨q0, hq01, hq0C, hq0P⟩ := hex
      have hqh : q0 ≤ high := by
        by_contra hq
        exact hub q0 (by omega) hq0C hq0P
      cases bb with
      | none => exfalso; have := hnone rfl; omega
      | some b =>
        obtain ⟨hl2, hbest⟩ := hsome b rfl
        refine ⟨by simp, by omega, ?_⟩
        intro q hq1 hqC hqP
        have hqhigh : q ≤ high := by
          by_contra hq
          exact hub q (by omega) hqC hqP
        omega

/-! ### Lemmas about the dimension fallback loop -/

/-- When the fallback loop condition is false, the loop returns its state
unchanged, for any fuel. -/
theorem fb_exit (E : PImage → EncodeMode → List Nat) (t : Rat) (bq cw ch : Nat)
    (img : PImage) (fuel : Nat) (bb : Option (List Nat)) (ib : List Nat) (f : Rat)
    (h : ¬ (t < get_image_size (pyOrBytes bb ib) ∧ ratDivNat 3 10 < f)) :
    dimension_fallback E t bq cw ch img fuel bb ib f = (bb, ib, img) := by
  cases fuel with
  | zero => rfl
  | succ n => rw [dimension_fallback, if_neg h]

/-- The reduction factor drops by `1/10` per iteration, so `int(10 * f)`
bounds the remaining iterations. -/
theorem fb_measure_step {f : Rat} (h : ratDivNat 3 10 < f) :
    ratFloorNat (natMulRat 10 (ratSub f (ratDivNat 1 10))) =
      ratFloorNat (natMulRat 10 f) - 1 ∧
    3 ≤ ratFloorNat (natMulRat 10 f) := by
  rw [ratDivNat_eq] at h
  have h3 : (3 : Rat) < 10 * f := by
    have := (div_lt_iff₀ (by norm_num : (0 : Rat) < 10)).mp (by exact_mod_cast h)
    linarith
  have hfl3 : (3 : Int) ≤ ⌊(10 : Rat) * f⌋ := Int.le_floor.mpr (by exact_mod_cast le_of_lt h3)
  have hsub : natMulRat 10 (ratSub f (ratDivNat 1 10)) = (10 : Rat) * f - 1 := by
    rw [natMulRat_eq, ratSub_eq, ratDivNat_eq]
    push_cast
    ring
  constructor
  · rw [hsub, ratFloorNat_eq, ratFloorNat_eq, natMulRat_eq]
    have hfs : ⌊(10 : Rat) * f - 1⌋ = ⌊(10 : Rat) * f⌋ - 1 := by
      rw [show ((1 : Rat)) = ((1 : Int) : Rat) by norm_num, Int.floor_sub_int]
    rw [hfs]
    push_cast
    omega
  · rw [ratFloorNat_eq, natMulRat_eq]
    push_cast
    omega

/-- The fuel argument is irrelevant once it dominates `int(10 * f)`: the
embedded fallback loop equals the unbounded Python loop.  `compress_image`
passes fuel 10 at the initial factor 0.8, whose measure is 8. -/
theorem fb_fuel_irrelevant (E : PImage → EncodeMode → List Nat) (t : Rat)
    (bq cw ch : Nat) (img : PImage) :
    ∀ fuel fuel2 bb ib f, ratFloorNat (natMulRat 10 f) ≤ fuel →
      ratFloorNat (natMulRat 10 f) ≤ fuel2 →
      dimension_fallback E t bq cw ch img fuel bb ib f =
      dimension_fallback E t bq cw ch img fuel2 bb ib f := by
  intro fuel
  induction fuel with
  | zero =>
    intro fuel2 bb ib f hf1 hf2
    have hc : ¬ (t < get_image_size (pyOrBytes bb ib) ∧ ratDivNat 3 10 < f) := by
      intro hc
      obtain ⟨_, hm3⟩ := fb_measure_step hc.2
      omega
    rw [fb_exit E t bq cw ch img _ _ _ _ hc, fb_exit E t bq cw ch img _ _ _ _ hc]
  | succ n ih =>
    intro fuel2 bb ib f hf1 hf2
    by_cases hc : t < get_image_size (pyOrBytes bb ib) ∧ ratDivNat 3 10 < f
    · obtain ⟨hstep, hm3⟩ := fb_measure_step hc.2
      cases fuel2 with
      | zero => omega
      | succ m =>
        rw [dimension_fallback, dimension_fallback, if_pos hc, if_pos hc]
        simp only []
        by_cases h2 : get_image_size
            (E (img.resize (ratFloorNat (natMulRat cw f)) (ratFloorNat (natMulRat ch f)))
              (EncodeMode.lossy bq)) ≤ t
        · rw [if_pos h2, if_pos h2]
        · rw [if_neg h2, if_neg h2]
          exact ih m _ _ _ (by omega) (by omega)
    · rw [fb_exit E t bq cw ch img _ _ _ _ hc, fb_exit E t bq cw ch img _ _ _ _ hc]

/-- Structure of the fallback loop result: either it exits with
`best_image_bytes` and `image` unchanged (and `img_bytes` unchanged or
replaced by an over-budget attempt), or it breaks successfully, with the
final image being the pre-loop image resized by one factor `f'` applied to
the fixed pre-loop dimensions `cw`, `ch`, encoded lossily at the fixed
`best_quality`. -/
theorem fb_cases (E : PImage → EncodeMode → List Nat) (t : Rat)
    (bq cw ch : Nat) (img : PImage) :
    ∀ fuel bb ib f r, dimension_fallback E t bq cw ch img fuel bb ib f = r →
      (r.1 = bb ∧ r.2.2 = img ∧ (r.2.1 = ib ∨ t < get_image_size r.2.1)) ∨
      (∃ f', ratDivNat 3 10 < f' ∧ f' ≤ f ∧
        r.2.2 = img.resize (ratFloorNat (natMulRat cw f')) (ratFloorNat (natMulRat ch f')) ∧
        r.2.1 = E r.2.2 (EncodeMode.lossy bq) ∧ r.1 = some r.2.1 ∧
        get_image_size r.2.1 ≤ t) := by
  intro fuel
  induction fuel with
  | zero =>
    intro bb ib f r hr
    rw [dimension_fallback] at hr
    cases hr
    exact Or.inl ⟨rfl, rfl, Or.inl rfl⟩
  | succ n ih =>
    intro bb ib f r hr
    rw [dimension_fallback] at hr
    by_cases h1 : t < get_image_size (pyOrBytes bb ib) ∧ ratDivNat 3 10 < f
    · rw [if_pos h1] at hr
      simp only [] at hr
      by_cases h2 : get_image_size
          (E (img.resize (ratFloorNat (natMulRat cw f)) (ratFloorNat (natMulRat ch f)))
            (EncodeMode.lossy bq)) ≤ t
      · rw [if_pos h2] at hr
        cases hr
        exact Or.inr ⟨f, h1.2, le_refl f, rfl, rfl, rfl, h2⟩
      · rw [if_neg h2] at hr
        rcases ih _ _ _ _ hr with ⟨ha1, ha2, ha3⟩ | ⟨f', hf1, hf2, hb⟩
        · refine Or.inl ⟨ha1, ha2, Or.inr ?_⟩
          rcases ha3 with h | h
          · rw [h]; exact lt_of_not_le h2
          · exact h
        · refine Or.inr ⟨f', hf1, ?_, hb⟩
          calc f' ≤ ratSub f (ratDivNat 1 10) := hf2
            _ ≤ f := by
              rw [ratSub_eq]
              exact sub_le_self f (by rw [ratDivNat_eq]; positivity)
    · rw [if_neg h1] at hr
      cases hr
      exact Or.inl ⟨rfl, rfl, Or.inl rfl⟩

/-! ### Lemmas about the dimension fitter -/

/-- Floor of a rational below a natural stays below it. -/
theorem ratFloorNat_le_of_le {x : Rat} {n : Nat} (h : x ≤ (n : Rat)) :
    ratFloorNat x ≤ n := by
  rw [ratFloorNat_eq]
  have hf := Int.floor_le_floor h
  rw [Int.floor_natCast] at hf
  exact Int.toNat_le.mpr hf

/-- Multiplying by a factor at most one never increases a dimension. -/
theorem ratFloorNat_mul_le_self {f : Rat} (n : Nat) (h1 : f ≤ 1) :
    ratFloorNat (natMulRat n f) ≤ n := by
  apply ratFloorNat_le_of_le
  rw [natMulRat_eq]
  calc (n : Rat) * f ≤ (n : Rat) * 1 :=
        mul_le_mul_of_nonneg_left h1 (by positivity)
    _ = (n : Rat) := mul_one _

theorem resizeScale_nonneg (img : PImage) (mw mh : Nat) :
    0 ≤ resizeScale img mw mh := by
  rw [resizeScale, pymin_eq, pymin_eq, ratDivNat_eq, ratDivNat_eq]
  have h1 : (0 : Rat) ≤ (mw : Rat) / (img.width : Rat) := by positivity
  have h2 : (0 : Rat) ≤ (mh : Rat) / (img.height : Rat) := by positivity
  exact le_min (le_min h1 h2) zero_le_one

/-- For a nonnegative rational, `int(x)` is zero exactly when `x < 1`. -/
theorem ratFloorNat_eq_zero_iff {x : Rat} (hx : 0 ≤ x) :
    ratFloorNat x = 0 ↔ x < 1 := by
  rw [ratFloorNat_eq]
  constructor
  · intro h
    have h0 : ⌊x⌋ ≤ 0 := Int.toNat_eq_zero.mp h
    have h1 : ⌊x⌋ < 1 := by omega
    exact_mod_cast Int.floor_lt.mp h1
  · intro h
    have h1 : ⌊x⌋ < 1 := Int.floor_lt.mpr (by exact_mod_cast h)
    have h0 : 0 ≤ ⌊x⌋ := Int.floor_nonneg.mpr hx
    omega

theorem resizeScale_le_one (img : PImage) (mw mh : Nat) :
    resizeScale img mw mh ≤ 1 := by
  rw [resizeScale, pymin_eq, pymin_eq]
  exact min_le_right _ _

theorem resizeScale_le_width (img : PImage) (mw mh : Nat) :
    resizeScale img mw mh ≤ (mw : Rat) / (img.width : Rat) := by
  rw [resizeScale, pymin_eq, pymin_eq, ratDivNat_eq, ratDivNat_eq]
  exact le_trans (min_le_left _ _) (min_le_left _ _)

theorem resizeScale_le_height (img : PImage) (mw mh : Nat) :
    resizeScale img mw mh ≤ (mh : Rat) / (img.height : Rat) := by
  rw [resizeScale, pymin_eq, pymin_eq, ratDivNat_eq, ratDivNat_eq]
  exact le_trans (min_le_left _ _) (min_le_right _ _)

/-- app.py lines 158-166 never produce a width above `max_width`. -/
theorem fit_width_le (img : PImage) (mw mh : Nat) :
    (fitImage img mw mh).width ≤ mw := by
  simp only [fitImage]
  by_cases h : resizeScale img mw mh < 1
  · rw [if_pos h]
    show ratFloorNat (natMulRat img.width (resizeScale img mw mh)) ≤ mw
    apply ratFloorNat_le_of_le
    rw [natMulRat_eq]
    rcases Nat.eq_zero_or_pos img.width with hw | hw
    · rw [hw]; simp
    · have hwq : (0 : Rat) < (img.width : Rat) := by exact_mod_cast hw
      calc (img.width : Rat) * resizeScale img mw mh
          ≤ (img.width : Rat) * ((mw : Rat) / (img.width : Rat)) :=
            mul_le_mul_of_nonneg_left (resizeScale_le_width img mw mh) (le_of_lt hwq)
        _ = (mw : Rat) := by field_simp
  · rw [if_neg h]
    show img.width ≤ mw
    push_neg at h
    rcases Nat.eq_zero_or_pos img.width with hw | hw
    · omega
    · have hwq : (0 : Rat) < (img.width : Rat) := by exact_mod_cast hw
      have h1 : (1 : Rat) ≤ (mw : Rat) / (img.width : Rat) :=
        le_trans h (resizeScale_le_width img mw mh)
      have := (one_le_div hwq).mp h1
      exact_mod_cast this

/-- app.py lines 158-166 never produce a height above `max_height`. -/
theorem fit_height_le (img : PImage) (mw mh : Nat) :
    (fitImage img mw mh).height ≤ mh := by
  simp only [fitImage]
  by_cases h : resizeScale img mw mh < 1
  · rw [if_pos h]
    show ratFloorNat (natMulRat img.height (resizeScale img mw mh)) ≤ mh
    apply ratFloorNat_le_of_le
    rw [natMulRat_eq]
    rcases Nat.eq_zero_or_pos img.height with hw | hw
    · rw [hw]; simp
    · have hwq : (0 : Rat) < (img.height : Rat) := by exact_mod_cast hw
      calc (img.height : Rat) * resizeScale img mw mh
          ≤ (img.height : Rat) * ((mh : Rat) / (img.height : Rat)) :=
            mul_le_mul_of_nonneg_left (resizeScale_le_height img mw mh) (le_of_lt hwq)
        _ = (mh : Rat) := by field_simp
  · rw [if_neg h]
    show img.height ≤ mh
    push_neg at h
    rcases Nat.eq_zero_or_pos img.height with hw | hw
    · omega
    · have hwq : (0 : Rat) < (img.height : Rat) := by exact_mod_cast hw
      have h1 : (1 : Rat) ≤ (mh : Rat) / (img.height : Rat) :=
        le_trans h (resizeScale_le_height img mw mh)
      have := (one_le_div hwq).mp h1
      exact_mod_cast this

/-! ### Claim theorems -/

/-- Claim C3: for every encoder, input image and request, the final width
reported by `compress_image` is at most the requested max width and the
final height at most the requested max height; moreover neither the initial
fit nor any fallback reduction ever increases a dimension beyond the fit
computed from the original (final dimensions are bounded by the fitted
dimensions). -/
theorem C3_final_dims_bounded (E : PImage → EncodeMode → List Nat) (image : PImage)
    (t : Rat) (q mw mh : Nat) (pres : Bool) :
    (compress_image E image t q mw mh pres).finalW ≤ mw ∧
    (compress_image E image t q mw mh pres).finalH ≤ mh ∧
    (compress_image E image t q mw mh pres).finalW ≤ (fittedImage image mw mh pres).width ∧
    (compress_image E image t q mw mh pres).finalH ≤ (fittedImage image mw mh pres).height := by
  have hfw : (fittedImage image mw mh pres).width ≤ mw := fit_width_le _ _ _
  have hfh : (fittedImage image mw mh pres).height ≤ mh := fit_height_le _ _ _
  simp only [compress_image]
  by_cases hnf : needsFallback
      (quality_search (searchProbe E image mw mh pres) t (q + 1) 1 q q none []).2.1 t = true
  · rw [if_pos hnf]
    rcases fb_cases E t _ _ _ _ _ _ _ _ _ rfl with ⟨_, ha2, _⟩ | ⟨f', hf1, hf2, hb2, _⟩
    · rw [ha2]
      exact ⟨hfw, hfh, le_refl _, le_refl _⟩
    · rw [hb2]
      have hf'le1 : f' ≤ 1 := by
        refine le_trans hf2 ?_
        rw [ratDivNat_eq]
        norm_num
      have h1 : ratFloorNat (natMulRat (fittedImage image mw mh pres).width f') ≤
          (fittedImage image mw mh pres).width := ratFloorNat_mul_le_self _ hf'le1
      have h2 : ratFloorNat (natMulRat (fittedImage image mw mh pres).height f') ≤
          (fittedImage image mw mh pres).height := ratFloorNat_mul_le_self _ hf'le1
      simp only [PImage.resize]
      exact ⟨le_trans h1 hfw, le_trans h2 hfh, h1, h2⟩
  · rw [if_neg hnf]
    exact ⟨hfw, hfh, le_refl _, le_refl _⟩

/-- Claim C1: for every prepared, dimension-fitted image (reached through
`compress_image`'s preparation of `image`), every budget, and every ceiling
quality in `[1, 100]`, assuming the encoded size of a probe is monotonically
non-decreasing in quality, the quality search returns the highest integer
quality `q'` in `[1, ceiling]` whose encoded size meets the budget, and
records that probe's bytes as the result, whenever at least one such `q'`
exists. -/
theorem C1_search_optimal (E : PImage → EncodeMode → List Nat) (image : PImage)
    (t : Rat) (q mw mh : Nat) (pres : Bool)
    (hq1 : 1 ≤ q) (hq100 : q ≤ 100)
    (mono : ∀ a b, a ≤ b →
      (searchProbe E image mw mh pres a).length ≤ (searchProbe E image mw mh pres b).length)
    (hE : ∀ im m, E im m ≠ ([] : List Nat))
    (hex : ∃ q0, 1 ≤ q0 ∧ q0 ≤ q ∧
      get_image_size (searchProbe E image mw mh pres q0) ≤ t) :
    get_image_size (searchProbe E image mw mh pres
        (compress_image E image t q mw mh pres).quality) ≤ t ∧
    1 ≤ (compress_image E image t q mw mh pres).quality ∧
    (compress_image E image t q mw mh pres).quality ≤ q ∧
    (∀ q', 1 ≤ q' → q' ≤ q →
      get_image_size (searchProbe E image mw mh pres q') ≤ t →
      q' ≤ (compress_image E image t q mw mh pres).quality) ∧
    (compress_image E image t q mw mh pres).bytes =
      searchProbe E image mw mh pres (compress_image E image t q mw mh pres).quality := by
  obtain ⟨hne, hleC, hmaxall⟩ :=
    qs_max (searchProbe E image mw mh pres) t q mono (q + 1) 1 q q none []
      (by omega) (by omega) (by omega) (le_refl q) (fun _ => rfl)
      (by intro b hb; cases hb)
      (by intro q' h1 h2; exact absurd h1 (by omega)) hex
  obtain ⟨b, hb⟩ := Option.ne_none_iff_exists'.mp hne
  obtain ⟨hb_probe, hb_le⟩ :=
    qs_some_spec (searchProbe E image mw mh pres) t (q + 1) 1 q q none []
      (by intro b' hb'; cases hb') b hb
  have hbne : b ≠ [] := by
    rw [hb_probe]
    exact hE _ _
  have hnf : needsFallback
      (quality_search (searchProbe E image mw mh pres) t (q + 1) 1 q q none []).2.1 t
      = false := by
    rw [hb]
    simp only [needsFallback, decide_eq_false_iff_not]
    exact not_lt.mpr hb_le
  obtain ⟨q0, hq01, hq0q, hq0P⟩ := hex
  simp only [compress_image]
  rw [if_neg (by rw [hnf]; simp), hb, pyOr_some _ hbne]
  refine ⟨?_, ?_, hleC, hmaxall, ?_⟩
  · rw [← hb_probe]
    exact hb_le
  · exact le_trans hq01 (hmaxall q0 hq01 hq0q hq0P)
  · exact hb_probe

/-- Witness for C1 at a concrete instance: a 1-by-1 opaque image, ceiling 5,
budget 3 bytes, and an encoder producing `q + 1` bytes at lossy quality `q`;
the optimum is quality 2. -/
theorem C1_search_optimal_witness :
    get_image_size (searchProbe lenE (mkRGB 1 1) 100 100 true
        (compress_image lenE (mkRGB 1 1) (ratDivNat 3 1024) 5 100 100 true).quality)
      ≤ ratDivNat 3 1024 ∧
    1 ≤ (compress_image lenE (mkRGB 1 1) (ratDivNat 3 1024) 5 100 100 true).quality ∧
    (compress_image lenE (mkRGB 1 1) (ratDivNat 3 1024) 5 100 100 true).quality ≤ 5 ∧
    (∀ q', 1 ≤ q' → q' ≤ 5 →
      get_image_size (searchProbe lenE (mkRGB 1 1) 100 100 true q') ≤ ratDivNat 3 1024 →
      q' ≤ (compress_image lenE (mkRGB 1 1) (ratDivNat 3 1024) 5 100 100 true).quality) ∧
    (compress_image lenE (mkRGB 1 1) (ratDivNat 3 1024) 5 100 100 true).bytes =
      searchProbe lenE (mkRGB 1 1) 100 100 true
        (compress_image lenE (mkRGB 1 1) (ratDivNat 3 1024) 5 100 100 true).quality :=
  C1_search_optimal lenE (mkRGB 1 1) (ratDivNat 3 1024) 5 100 100 true
    (by decide) (by decide)
    (by
      intro a b h
      simp only [searchProbe, searchSaveMode, hasTransparencyOf, mkRGB, lenE,
        fittedImage]
      simp [List.length_replicate]
      omega)
    (by intro im m; cases m <;> simp [lenE])
    ⟨2, by decide, by decide, by decide⟩

/-- Counterexample to claim C2 as stated: a 10-by-10 image and an encoder
with lossy output of `quality * width` bytes.  The budget (5 bytes) is at
least the minimum achievable size at quality 1 after full fallback reduction
(width `int(10 * 0.3) = 3`, giving 3 bytes), yet the pipeline returns a
buffer exceeding the budget, because the fallback re-encodes at the
initialized `best_quality` (the ceiling, here 2), not at quality 1, and
stops at the factor floor. -/
theorem C2_counterexample :
    get_image_size (qwE ((fittedImage (mkRGB 10 10) 100 100 true).resize 3 3)
        (EncodeMode.lossy 1)) ≤ ratDivNat 5 1024 ∧
    ratDivNat 5 1024 <
      get_image_size
        (compress_image qwE (mkRGB 10 10) (ratDivNat 5 1024) 2 100 100 true).bytes := by
  decide

/-- Claim C2 (amended): for every encoder with nonempty outputs, every input
image, ceiling quality at least 1, and every budget at least the encoded
size at quality 1 of the prepared, dimension-fitted image, `compress_image`
returns a byte buffer whose size is within the budget. -/
theorem C2_budget_met (E : PImage → EncodeMode → List Nat) (image : PImage)
    (t : Rat) (q mw mh : Nat) (pres : Bool)
    (hq1 : 1 ≤ q)
    (hE : ∀ im m, E im m ≠ ([] : List Nat))
    (h1 : get_image_size (E (fittedImage image mw mh pres) (EncodeMode.lossy 1)) ≤ t) :
    get_image_size (compress_image E image t q mw mh pres).bytes ≤ t := by
  have hprobe1 : searchProbe E image mw mh pres 1 =
      E (fittedImage image mw mh pres) (EncodeMode.lossy 1) := by
    simp [searchProbe, searchSaveMode]
  have h1' : get_image_size (searchProbe E image mw mh pres 1) ≤ t := by
    rw [hprobe1]; exact h1
  have hne := qs_hits_one (searchProbe E image mw mh pres) t h1'
    (q + 1) 1 q q none [] rfl hq1 (by omega)
  obtain ⟨b, hb⟩ := Option.ne_none_iff_exists'.mp hne
  obtain ⟨hb_probe, hb_le⟩ :=
    qs_some_spec (searchProbe E image mw mh pres) t (q + 1) 1 q q none []
      (by intro b' hb'; cases hb') b hb
  have hbne : b ≠ [] := by rw [hb_probe]; exact hE _ _
  have hnf : needsFallback
      (quality_search (searchProbe E image mw mh pres) t (q + 1) 1 q q none []).2.1 t
      = false := by
    rw [hb]
    simp only [needsFallback, decide_eq_false_iff_not]
    exact not_lt.mpr hb_le
  simp only [compress_image]
  rw [if_neg (by rw [hnf]; simp), hb, pyOr_some _ hbne]
  exact hb_le

/-- Witness for the amended C2 at a concrete instance. -/
theorem C2_budget_met_witness :
    get_image_size (compress_image constE (mkRGB 1 1) 1 85 100 100 true).bytes ≤ 1 :=
  C2_budget_met constE (mkRGB 1 1) 1 85 100 100 true (by decide)
    (by intro im m; simp [constE]) (by decide)

/-- Counterexample to claim C4 as stated: with a 100-by-100 fitted image the
second fallback iteration resizes to width `int(100 * 0.7) = 70`, computed
from the fixed pre-loop width; under the claimed compounding (resizing the
already-reduced image) it would be `int(int(100 * 0.8) * 0.7) = 56`. -/
theorem C4_counterexample :
    (compress_image widthE (mkRGB 100 100) (ratDivNat 70 1024) 2 1000 1000 true).finalW
      = 70 ∧
    ratFloorNat (natMulRat (ratFloorNat (natMulRat 100 (ratDivNat 8 10)))
        (ratDivNat 7 10)) = 56 ∧
    (70 : Nat) ≠ 56 := by
  decide

/-- Claim C4 (amended): each iteration of the dimension fallback loop
computes its resize from the fixed pre-loop dimensions (`current_width`,
`current_height`, read once at line 205) — factors do not compound — and
re-encodes at the fixed `best_quality`: any successful exit yields the
pre-loop image resized by one single factor, encoded lossily at
`best_quality`; otherwise `best_image_bytes` and the image are unchanged. -/
theorem C4_fallback_single_factor (E : PImage → EncodeMode → List Nat) (t : Rat)
    (bq cw ch : Nat) (img : PImage) (fuel : Nat) (bb : Option (List Nat))
    (ib : List Nat) (f : Rat) (r : Option (List Nat) × List Nat × PImage)
    (hr : dimension_fallback E t bq cw ch img fuel bb ib f = r) :
    (r.1 = bb ∧ r.2.2 = img ∧ (r.2.1 = ib ∨ t < get_image_size r.2.1)) ∨
    (∃ f', ratDivNat 3 10 < f' ∧ f' ≤ f ∧
      r.2.2 = img.resize (ratFloorNat (natMulRat cw f')) (ratFloorNat (natMulRat ch f')) ∧
      r.2.1 = E r.2.2 (EncodeMode.lossy bq) ∧ r.1 = some r.2.1 ∧
      get_image_size r.2.1 ≤ t) :=
  fb_cases E t bq cw ch img fuel bb ib f r hr

/-- Witness for the amended C4 at a concrete instance. -/
theorem C4_fallback_single_factor_witness :
    ((dimension_fallback widthE 1 2 10 10 (mkRGB 10 10) 10 none [0] (ratDivNat 8 10)).1
        = none ∧
      (dimension_fallback widthE 1 2 10 10 (mkRGB 10 10) 10 none [0]
        (ratDivNat 8 10)).2.2 = mkRGB 10 10 ∧
      ((dimension_fallback widthE 1 2 10 10 (mkRGB 10 10) 10 none [0]
          (ratDivNat 8 10)).2.1 = [0] ∨
        1 < get_image_size (dimension_fallback widthE 1 2 10 10 (mkRGB 10 10) 10 none [0]
          (ratDivNat 8 10)).2.1)) ∨
    (∃ f', ratDivNat 3 10 < f' ∧ f' ≤ ratDivNat 8 10 ∧
      (dimension_fallback widthE 1 2 10 10 (mkRGB 10 10) 10 none [0]
        (ratDivNat 8 10)).2.2 =
        (mkRGB 10 10).resize (ratFloorNat (natMulRat 10 f')) (ratFloorNat (natMulRat 10 f')) ∧
      (dimension_fallback widthE 1 2 10 10 (mkRGB 10 10) 10 none [0]
        (ratDivNat 8 10)).2.1 =
        widthE (dimension_fallback widthE 1 2 10 10 (mkRGB 10 10) 10 none [0]
          (ratDivNat 8 10)).2.2 (EncodeMode.lossy 2) ∧
      (dimension_fallback widthE 1 2 10 10 (mkRGB 10 10) 10 none [0]
        (ratDivNat 8 10)).1 =
        some (dimension_fallback widthE 1 2 10 10 (mkRGB 10 10) 10 none [0]
          (ratDivNat 8 10)).2.1 ∧
      get_image_size (dimension_fallback widthE 1 2 10 10 (mkRGB 10 10) 10 none [0]
        (ratDivNat 8 10)).2.1 ≤ 1) :=
  C4_fallback_single_factor widthE 1 2 10 10 (mkRGB 10 10) 10 none [0] (ratDivNat 8 10)
    _ rfl

/-- Counterexample to claim C5 as stated: a transparent image, preservation
requested, ceiling 95 and a large budget.  The final result's bytes are the
lossless encode (`markE … lossless = [7]`), its probe mode was lossless, and
yet the returned quality is the plain number 95 — `compress_image` never
reports a "lossless" marker. -/
theorem C5_counterexample :
    (compress_image markE imgTransparent 1 95 2000 2000 true).quality = 95 ∧
    (compress_image markE imgTransparent 1 95 2000 2000 true).bytes =
      markE (fittedImage imgTransparent 2000 2000 true) EncodeMode.lossless ∧
    searchSaveMode (hasTransparencyOf imgTransparent) true 95 = EncodeMode.lossless := by
  decide

/-- Claim C5 (amended): the recorded result of the quality search is always
the probe of the recorded *numeric* `best_quality`; when transparency is
present, preservation requested and that numeric quality exceeds 90, those
recorded bytes are the lossless encode — `compress_image` reports the
numeric mid, not a lossless marker, for such probes. -/
theorem C5_numeric_quality (E : PImage → EncodeMode → List Nat) (image : PImage)
    (t : Rat) (q mw mh : Nat) (pres : Bool) (b : List Nat)
    (hb : (quality_search (searchProbe E image mw mh pres) t (q + 1) 1 q q none []).2.1
      = some b) :
    b = E (fittedImage image mw mh pres)
        (searchSaveMode (hasTransparencyOf image) pres
          ((quality_search (searchProbe E image mw mh pres) t (q + 1) 1 q q none []).1)) ∧
    (hasTransparencyOf image = true → pres = true →
      90 < (quality_search (searchProbe E image mw mh pres) t (q + 1) 1 q q none []).1 →
      searchSaveMode (hasTransparencyOf image) pres
        ((quality_search (searchProbe E image mw mh pres) t (q + 1) 1 q q none []).1)
        = EncodeMode.lossless) := by
  obtain ⟨h1, _⟩ :=
    qs_some_spec (searchProbe E image mw mh pres) t (q + 1) 1 q q none []
      (by intro b' hb'; cases hb') b hb
  refine ⟨h1, ?_⟩
  intro hT hp hq
  set n := (quality_search (searchProbe E image mw mh pres) t (q + 1) 1 q q none []).1
    with hn
  have hcond : (hasTransparencyOf image && pres && decide (90 < n)) = true := by
    rw [hT, hp]
    simp only [Bool.true_and, decide_eq_true_eq]
    exact hq
  rw [searchSaveMode, if_pos hcond]

/-- Witness for the amended C5 at the concrete C5 instance. -/
theorem C5_numeric_quality_witness :
    [7] = markE (fittedImage imgTransparent 2000 2000 true)
        (searchSaveMode (hasTransparencyOf imgTransparent) true
          ((quality_search (searchProbe markE imgTransparent 2000 2000 true) 1
            96 1 95 95 none []).1)) ∧
    (hasTransparencyOf imgTransparent = true → true = true →
      90 < (quality_search (searchProbe markE imgTransparent 2000 2000 true) 1
        96 1 95 95 none []).1 →
      searchSaveMode (hasTransparencyOf imgTransparent) true
        ((quality_search (searchProbe markE imgTransparent 2000 2000 true) 1
          96 1 95 95 none []).1) = EncodeMode.lossless) :=
  C5_numeric_quality markE imgTransparent 1 95 2000 2000 true [7] (by decide)

/-- Counterexample to claim C6 as stated: a truecolor-with-alpha input
processed with `preserve_transparency = false` is flattened and encoded
without an alpha channel, yet the returned flag is `true` (it is computed
from the original image at line 153, not from the encoded image). -/
theorem C6_counterexample :
    (compress_image constE imgTransparent 1 85 100 100 false).has_transparency = true ∧
    hasTransparencyOf (fittedImage imgTransparent 100 100 false) = false := by
  decide

/-- Claim C6 (amended): the transparency flag in the result of
`compress_image` is the TransparencyFlag of the *original* input image
(line 153), regardless of whether the encoded image was flattened. -/
theorem C6_flag_is_original (E : PImage → EncodeMode → List Nat) (image : PImage)
    (t : Rat) (q mw mh : Nat) (pres : Bool) :
    (compress_image E image t q mw mh pres).has_transparency =
      hasTransparencyOf image := rfl

/-- Claim C7, evaluated at the failing input: flattening a fully transparent
truecolor pixel with `preserve = false` produces the hardcoded white
(255, 255, 255) — not a caller-specified background color (the UI's
`background_color` picker value, e.g. black, is never passed in) — while
`preserve = true` returns the image unchanged with its alpha channel. -/
theorem C7_flatten_hardcoded_white :
    (prepare_image_for_webp imgTransparent false).mode = Mode.RGB ∧
    modeHasAlpha (prepare_image_for_webp imgTransparent false).mode = false ∧
    (prepare_image_for_webp imgTransparent false).px 0 0 = ⟨255, 255, 255, 255⟩ ∧
    (⟨255, 255, 255, 255⟩ : Pixel) ≠ ⟨0, 0, 0, 255⟩ ∧
    prepare_image_for_webp imgTransparent true = imgTransparent :=
  ⟨by decide, by decide, by decide, by decide, rfl⟩

/-- Counterexample to claim C8 as stated: a 1-by-10000 image fitted into
1920-by-1080 has scale `min(1920/1, 1080/10000, 1) = 27/250 < 1` and fitted
width `int(1 * 27/250) = 0`: the resize is invoked with a zero dimension
(the source has no 1-pixel minimum clamp). -/
theorem C8_counterexample :
    resizeScale (mkRGB 1 10000) 1920 1080 < 1 ∧
    (fitImage (mkRGB 1 10000) 1920 1080).width = 0 := by
  decide

/-- Claim C8 (amended): when `scale < 1` the fitting step produces exactly
`floor(width * scale)` and `floor(height * scale)` with no minimum clamp;
the resize is invoked with width zero precisely when `width * scale < 1`. -/
theorem C8_fit_no_clamp (img : PImage) (mw mh : Nat)
    (h : resizeScale img mw mh < 1) :
    (fitImage img mw mh).width =
      ratFloorNat (natMulRat img.width (resizeScale img mw mh)) ∧
    (fitImage img mw mh).height =
      ratFloorNat (natMulRat img.height (resizeScale img mw mh)) ∧
    ((fitImage img mw mh).width = 0 ↔
      (img.width : Rat) * resizeScale img mw mh < 1) := by
  have hw : (fitImage img mw mh).width =
      ratFloorNat (natMulRat img.width (resizeScale img mw mh)) := by
    simp only [fitImage]
    rw [if_pos h]
    rfl
  have hh : (fitImage img mw mh).height =
      ratFloorNat (natMulRat img.height (resizeScale img mw mh)) := by
    simp only [fitImage]
    rw [if_pos h]
    rfl
  refine ⟨hw, hh, ?_⟩
  rw [hw, ← natMulRat_eq]
  exact ratFloorNat_eq_zero_iff (by
    rw [natMulRat_eq]
    exact mul_nonneg (by positivity) (resizeScale_nonneg img mw mh))

/-- Witness for the amended C8 at the concrete C8 instance. -/
theorem C8_fit_no_clamp_witness :
    (fitImage (mkRGB 1 10000) 1920 1080).width =
      ratFloorNat (natMulRat (mkRGB 1 10000).width
        (resizeScale (mkRGB 1 10000) 1920 1080)) ∧
    (fitImage (mkRGB 1 10000) 1920 1080).height =
      ratFloorNat (natMulRat (mkRGB 1 10000).height
        (resizeScale (mkRGB 1 10000) 1920 1080)) ∧
    ((fitImage (mkRGB 1 10000) 1920 1080).width = 0 ↔
      ((mkRGB 1 10000).width : Rat) * resizeScale (mkRGB 1 10000) 1920 1080 < 1) :=
  C8_fit_no_clamp (mkRGB 1 10000) 1920 1080 (by decide)

/-- Counterexample to claim C9 as stated: on the soft-fail path the returned
buffer was encoded at the last attempted reduced size (width
`int(10 * 0.4) = 4` here), while the reported final width is the
pre-fallback fitted width 10. -/
theorem C9_counterexample :
    (compress_image widthE (mkRGB 10 10) (ratDivNat 2 1024) 2 100 100 true).finalW = 10 ∧
    (compress_image widthE (mkRGB 10 10) (ratDivNat 2 1024) 2 100 100 true).bytes =
      widthE ((fittedImage (mkRGB 10 10) 100 100 true).resize 4 4) (EncodeMode.lossy 2) ∧
    ((fittedImage (mkRGB 10 10) 100 100 true).resize 4 4).width ≠
      (compress_image widthE (mkRGB 10 10) (ratDivNat 2 1024) 2 100 100 true).finalW := by
  decide

/-- Claim C9 (amended): whenever the buffer returned by `compress_image`
meets the budget (every path except the soft-fail exit of the fallback), the
reported final width and height are the dimensions of the image encoded into
that buffer. -/
theorem C9_dims_match_bytes (E : PImage → EncodeMode → List Nat) (image : PImage)
    (t : Rat) (q mw mh : Nat) (pres : Bool)
    (hq1 : 1 ≤ q)
    (hE : ∀ im m, E im m ≠ ([] : List Nat))
    (hmeets : get_image_size (compress_image E image t q mw mh pres).bytes ≤ t) :
    ∃ im' m', (compress_image E image t q mw mh pres).bytes = E im' m' ∧
      im'.width = (compress_image E image t q mw mh pres).finalW ∧
      im'.height = (compress_image E image t q mw mh pres).finalH := by
  set s := quality_search (searchProbe E image mw mh pres) t (q + 1) 1 q q none []
    with hs
  set fit := fittedImage image mw mh pres with hfit
  rcases hbb : s.2.1 with _ | b
  · -- the search failed entirely: the fallback runs
    have hlast : t < get_image_size s.2.2 :=
      qs_none_last (searchProbe E image mw mh pres) t (q + 1) 1 q q none []
        (by omega) (by omega) hq1 hbb
    have hnf : needsFallback s.2.1 t = true := by rw [hbb]; rfl
    set D := dimension_fallback E t s.1 fit.width fit.height fit 10 s.2.1 s.2.2
      (ratDivNat 8 10) with hD
    have hcompress : compress_image E image t q mw mh pres =
        { bytes := pyOrBytes D.1 D.2.1, quality := s.1, finalW := D.2.2.width,
          finalH := D.2.2.height, has_transparency := hasTransparencyOf image } := by
      simp only [compress_image, ← hs, ← hfit, ← hD]
      rw [if_pos hnf]
    rcases fb_cases E t s.1 fit.width fit.height fit 10 s.2.1 s.2.2 (ratDivNat 8 10)
      D hD.symm with ⟨ha1, _, ha3⟩ | ⟨f', _, _, _, hb3, hb4, _⟩
    · exfalso
      rw [hcompress] at hmeets
      have hover : t < get_image_size D.2.1 := by
        rcases ha3 with h | h
        · rw [h]; exact hlast
        · exact h
      rw [show D.1 = none from ha1.trans hbb] at hmeets
      simp only [pyOrBytes] at hmeets
      exact absurd hmeets (not_le.mpr hover)
    · have hne2 : D.2.1 ≠ [] := by rw [hb3]; exact hE _ _
      refine ⟨D.2.2, EncodeMode.lossy s.1, ?_, ?_, ?_⟩
      · rw [hcompress]
        show pyOrBytes D.1 D.2.1 = _
        rw [hb4, pyOr_some _ hne2]
        exact hb3
      · rw [hcompress]
      · rw [hcompress]
  · -- the search succeeded: the fallback is skipped
    obtain ⟨hb_probe, hb_le⟩ :=
      qs_some_spec (searchProbe E image mw mh pres) t (q + 1) 1 q q none []
        (by intro b' hb'; cases hb') b hbb
    have hbne : b ≠ [] := by rw [hb_probe]; exact hE _ _
    have hnf : needsFallback s.2.1 t = false := by
      rw [hbb]
      simp only [needsFallback, decide_eq_false_iff_not]
      exact not_lt.mpr hb_le
    have hcompress : compress_image E image t q mw mh pres =
        { bytes := pyOrBytes s.2.1 s.2.2, quality := s.1, finalW := fit.width,
          finalH := fit.height, has_transparency := hasTransparencyOf image } := by
      simp only [compress_image, ← hs, ← hfit]
      rw [if_neg (by rw [hnf]; simp)]
    refine ⟨fit, searchSaveMode (hasTransparencyOf image) pres s.1, ?_, ?_, ?_⟩
    · rw [hcompress]
      show pyOrBytes s.2.1 s.2.2 = _
      rw [hbb, pyOr_some _ hbne]
      exact hb_probe
    · rw [hcompress]
    · rw [hcompress]

/-- Witness for the amended C9 at a concrete instance. -/
theorem C9_dims_match_bytes_witness :
    ∃ im' m', (compress_image constE (mkRGB 1 1) 1 85 100 100 true).bytes = constE im' m' ∧
      im'.width = (compress_image constE (mkRGB 1 1) 1 85 100 100 true).finalW ∧
      im'.height = (compress_image constE (mkRGB 1 1) 1 85 100 100 true).finalH :=
  C9_dims_match_bytes constE (mkRGB 1 1) 1 85 100 100 true (by decide)
    (by intro im m; simp [constE]) (by decide)

/-- Claim C10: every encode performed inside the dimension fallback loop is
lossy at the fixed `best_quality` and never takes the lossless path: the
loop's entire result depends only on the encoder's lossy output at
`best_quality` — two encoders agreeing there (but arbitrary on the lossless
path and at other qualities) produce identical fallback results, even when
the image has transparency, preservation was requested and
`best_quality > 90`. -/
theorem C10_fallback_never_lossless (E E2 : PImage → EncodeMode → List Nat)
    (t : Rat) (bq cw ch : Nat) (img : PImage)
    (h : ∀ im, E im (EncodeMode.lossy bq) = E2 im (EncodeMode.lossy bq)) :
    ∀ fuel bb ib f,
      dimension_fallback E t bq cw ch img fuel bb ib f =
      dimension_fallback E2 t bq cw ch img fuel bb ib f := by
  intro fuel
  induction fuel with
  | zero => intro bb ib f; rfl
  | succ n ih =>
    intro bb ib f
    rw [dimension_fallback, dimension_fallback]
    by_cases h1 : t < get_image_size (pyOrBytes bb ib) ∧ ratDivNat 3 10 < f
    · rw [if_pos h1, if_pos h1]
      simp only []
      rw [h (img.resize (ratFloorNat (natMulRat cw f)) (ratFloorNat (natMulRat ch f)))]
      by_cases h2 : get_image_size
          (E2 (img.resize (ratFloorNat (natMulRat cw f)) (ratFloorNat (natMulRat ch f)))
            (EncodeMode.lossy bq)) ≤ t
      · rw [if_pos h2, if_pos h2]
      · rw [if_neg h2, if_neg h2]
        exact ih _ _ _
    · rw [if_neg h1, if_neg h1]

/-- Witness for C10 at a concrete instance: a transparent image, fixed
quality 95 (above the lossless-eligibility threshold), and two encoders that
differ on their lossless output yet yield the same fallback result. -/
theorem C10_fallback_never_lossless_witness :
    dimension_fallback markE2 1 95 10 10 imgTransparent 10 none [0] (ratDivNat 8 10) =
    dimension_fallback markE3 1 95 10 10 imgTransparent 10 none [0] (ratDivNat 8 10) :=
  C10_fallback_never_lossless markE2 markE3 1 95 10 10 imgTransparent
    (fun _ => rfl) 10 none [0] (ratDivNat 8 10)

end FastWebP
